import Mathlib

/-!
# Verification of the on-ledger invoice settlement program (src/src/lib.rs)

A shallow embedding of the Solana program in `src/src/lib.rs`: the borsh
codec for the `Invoice` record and the `InstructionData` enum, the base58
rendering used by `Pubkey::to_string`, the two instruction handlers
`pay_invoice` and `create_invoice`, and the ledger primitives they invoke
(system-program transfer and create_account), together with theorems about
the behaviour the specification claims.

Machine integers are modelled as `Nat` with explicit widths: a byte is a
`Nat` (valid when `< 256`), a `Pubkey` is a list of 32 bytes, `u64`/`u128`
fields are `Nat`s bounded by `2^64`/`2^128`.
-/

set_option autoImplicit false

namespace InvoiceProgram



/-- A public key: in the source a 32-byte array (`Pubkey`).  Modelled as a
list of bytes; `ValidPubkey` states the typing invariant the Rust type
enforces. -/
abbrev Pubkey := List Nat

/-- The typing invariant of a Rust `Pubkey`/`[u8; 32]`: 32 bytes, each below 256. -/
def ValidPubkey (k : Pubkey) : Prop := k.length = 32 ∧ ∀ b ∈ k, b < 256

instance (k : Pubkey) : Decidable (ValidPubkey k) := by
  unfold ValidPubkey; infer_instance

/-! ## Little-endian fixed-width integers (borsh `u64`/`u128`) -/

/-- Little-endian byte encoding of `n` in exactly `w` bytes (borsh layout for
fixed-width unsigned integers; truncates like the Rust types would make
impossible, so callers always have `n < 256 ^ w`). -/
def natToBytesLE : Nat → Nat → List Nat
  | 0, _ => []
  | w + 1, n => n % 256 :: natToBytesLE w (n / 256)

/-- Little-endian byte decoding, inverse of `natToBytesLE`. -/
def natFromBytesLE : List Nat → Nat
  | [] => 0
  | b :: t => b + 256 * natFromBytesLE t

@[simp] theorem natToBytesLE_length (w n : Nat) : (natToBytesLE w n).length = w := by
  induction w generalizing n with
  | zero => rfl
  | succ w ih => simp [natToBytesLE, ih]

theorem natToBytesLE_lt (w n : Nat) : ∀ b ∈ natToBytesLE w n, b < 256 := by
  induction w generalizing n with
  | zero => simp [natToBytesLE]
  | succ w ih =>
    intro b hb
    simp only [natToBytesLE, List.mem_cons] at hb
    rcases hb with h | h
    · subst h; exact Nat.mod_lt _ (by omega)
    · exact ih (n / 256) b h

theorem natFromBytesLE_natToBytesLE (w n : Nat) (h : n < 256 ^ w) :
    natFromBytesLE (natToBytesLE w n) = n := by
  induction w generalizing n with
  | zero =>
    simp only [natToBytesLE, natFromBytesLE]
    simp only [pow_zero] at h
    omega
  | succ w ih =>
    have hdiv : n / 256 < 256 ^ w := by
      rw [Nat.div_lt_iff_lt_mul (by omega)]
      calc n < 256 ^ (w + 1) := h
        _ = 256 ^ w * 256 := by ring
    simp only [natToBytesLE, natFromBytesLE]
    rw [ih (n / 256) hdiv]
    omega

theorem natFromBytesLE_lt (l : List Nat) (h : ∀ b ∈ l, b < 256) :
    natFromBytesLE l < 256 ^ l.length := by
  induction l with
  | nil => simp [natFromBytesLE]
  | cons b t ih =>
    have hb : b < 256 := h b (by simp)
    have ht := ih (fun x hx => h x (by simp [hx]))
    simp only [natFromBytesLE, List.length_cons]
    have hpow : (256:Nat) ^ (t.length + 1) = 256 * 256 ^ t.length := by ring
    omega

/-! ## Base58 rendering (`Pubkey::to_string`)

The source compares addresses through `Pubkey::to_string`, the bs58
rendering of the 32 raw bytes: one `1` character per leading zero byte,
followed by the big-endian base-58 digits of the byte string's value. -/

/-- The bs58 alphabet used by `Pubkey`'s `Display`. -/
def base58Alphabet : List Char :=
  "123456789ABCDEFGHJKLMNPQRSTUVWXYZabcdefghijkmnopqrstuvwxyz".toList

/-- Character for one base-58 digit. -/
def digitChar (d : Nat) : Char := base58Alphabet.getD d '?'

/-- Digit value of one base-58 character (used only in proofs, as the left
inverse of `digitChar`). -/
def charToDigit (c : Char) : Nat := base58Alphabet.indexOf c

/-- Least-significant-first base-58 digits of `n`; `fuel` bounds the
recursion and any `fuel ≥ n` is enough. -/
def toDigits58Aux : Nat → Nat → List Nat
  | 0, _ => []
  | fuel + 1, n => if n = 0 then [] else n % 58 :: toDigits58Aux fuel (n / 58)

/-- Least-significant-first base-58 digits of `n` (empty for `0`). -/
def base58Digits (n : Nat) : List Nat := toDigits58Aux n n

/-- Value of a least-significant-first base-58 digit list. -/
def fromDigits58 : List Nat → Nat
  | [] => 0
  | d :: t => d + 58 * fromDigits58 t

/-- The big-endian numeric value of a byte string. -/
def pubkeyNat (a : List Nat) : Nat := natFromBytesLE a.reverse

/-- `Pubkey::to_string`: the bs58 rendering of the 32-byte address. -/
def toBase58 (a : Pubkey) : String :=
  ⟨List.replicate (a.takeWhile (fun b => b = 0)).length '1'
    ++ ((base58Digits (pubkeyNat a)).map digitChar).reverse⟩

theorem toDigits58Aux_zero (fuel : Nat) : toDigits58Aux fuel 0 = [] := by
  cases fuel <;> simp [toDigits58Aux]

theorem fromDigits58_toDigits58Aux (fuel n : Nat) (h : n ≤ fuel) :
    fromDigits58 (toDigits58Aux fuel n) = n := by
  induction fuel generalizing n with
  | zero => simp only [toDigits58Aux, fromDigits58]; omega
  | succ fuel ih =>
    by_cases h0 : n = 0
    · simp [toDigits58Aux, fromDigits58, h0]
    · have hlt : n / 58 < n := Nat.div_lt_self (by omega) (by omega)
      simp only [toDigits58Aux, h0, if_false, fromDigits58]
      rw [ih (n / 58) (by omega)]
      omega

theorem toDigits58Aux_lt (fuel n : Nat) : ∀ d ∈ toDigits58Aux fuel n, d < 58 := by
  induction fuel generalizing n with
  | zero => simp [toDigits58Aux]
  | succ fuel ih =>
    intro d hd
    by_cases h0 : n = 0
    · simp [toDigits58Aux, h0] at hd
    · simp only [toDigits58Aux, h0, if_false, List.mem_cons] at hd
      rcases hd with h | h
      · subst h; exact Nat.mod_lt _ (by omega)
      · exact ih (n / 58) d h

/-- For positive `n` the most significant digit (the last of the
least-significant-first list) is nonzero. -/
theorem toDigits58Aux_msd (fuel n : Nat) (hn : 0 < n) (h : n ≤ fuel) :
    ∃ ds d, toDigits58Aux fuel n = ds ++ [d] ∧ d ≠ 0 ∧ d < 58 := by
  induction fuel generalizing n with
  | zero => omega
  | succ fuel ih =>
    have h0 : n ≠ 0 := by omega
    by_cases hq : n / 58 = 0
    · refine ⟨[], n % 58, ?_, by omega, Nat.mod_lt _ (by omega)⟩
      simp [toDigits58Aux, h0, hq, toDigits58Aux_zero]
    · have hlt : n / 58 < n := Nat.div_lt_self (by omega) (by omega)
      obtain ⟨ds, d, heq, hne, hdlt⟩ := ih (n / 58) (by omega) (by omega)
      exact ⟨n % 58 :: ds, d, by simp [toDigits58Aux, h0, heq], hne, hdlt⟩

theorem charToDigit_digitChar (d : Nat) (h : d < 58) : charToDigit (digitChar d) = d := by
  have : ∀ x : Fin 58, charToDigit (digitChar x.val) = x.val := by decide
  exact this ⟨d, h⟩

theorem digitChar_ne_one (d : Nat) (h : d < 58) (h0 : d ≠ 0) : digitChar d ≠ '1' := by
  have : ∀ x : Fin 58, x.val ≠ 0 → digitChar x.val ≠ '1' := by decide
  exact this ⟨d, h⟩ h0

theorem dropWhile_replicate_one (z : Nat) :
    List.dropWhile (fun c => c = '1') (List.replicate z '1') = [] := by
  induction z with
  | zero => rfl
  | succ z ih => simp [List.replicate_succ, List.dropWhile, ih]

theorem dropWhile_replicate_one_append (z : Nat) (l : List Char) :
    List.dropWhile (fun c => c = '1') (List.replicate z '1' ++ l) =
      List.dropWhile (fun c => c = '1') l := by
  induction z with
  | zero => rfl
  | succ z ih => simp [List.replicate_succ, List.dropWhile, ih]

/-- Recover the numeric value from a bs58 rendering: drop the leading `1`s,
read the remaining characters as big-endian base-58 digits. -/
def decodeBase58Nat (s : List Char) : Nat :=
  fromDigits58 (((s.dropWhile (fun c => c = '1')).map charToDigit).reverse)

/-- `decodeBase58Nat` recovers the value from any rendering with any number
of leading `1`s. -/
theorem decodeBase58Nat_encode (z n : Nat) :
    decodeBase58Nat (List.replicate z '1' ++ ((base58Digits n).map digitChar).reverse) = n := by
  rcases Nat.eq_zero_or_pos n with h0 | hpos
  · subst h0
    simp [decodeBase58Nat, base58Digits, toDigits58Aux_zero, dropWhile_replicate_one,
      fromDigits58]
  · obtain ⟨ds, d, heq, hne, hdlt⟩ := toDigits58Aux_msd n n hpos (le_refl n)
    have hdigits : ∀ x ∈ ds ++ [d], x < 58 := by
      rw [← heq]; exact toDigits58Aux_lt n n
    have hds : ∀ x ∈ ds, x < 58 := fun x hx => hdigits x (by simp [hx])
    have hhd : digitChar d ≠ '1' := digitChar_ne_one d hdlt hne
    unfold decodeBase58Nat
    rw [dropWhile_replicate_one_append, show base58Digits n = ds ++ [d] from heq]
    have hstep1 : ((ds ++ [d]).map digitChar).reverse
        = digitChar d :: (ds.map digitChar).reverse := by
      rw [List.map_append, List.reverse_append]
      rfl
    rw [hstep1, List.dropWhile_cons, if_neg (by simp [hhd])]
    have hstep2 : ((digitChar d :: (ds.map digitChar).reverse).map charToDigit).reverse
        = (ds.map digitChar).map charToDigit ++ [charToDigit (digitChar d)] := by
      rw [List.map_cons, List.reverse_cons, List.map_reverse, List.reverse_reverse]
    rw [hstep2, List.map_map, charToDigit_digitChar d hdlt]
    have hmapid : ds.map (charToDigit ∘ digitChar) = ds := by
      calc ds.map (charToDigit ∘ digitChar) = ds.map id := by
            apply List.map_congr_left
            intro a ha
            exact charToDigit_digitChar a (hds a ha)
        _ = ds := List.map_id ds
    rw [hmapid, ← heq]
    exact fromDigits58_toDigits58Aux n n (le_refl n)

/-- Injectivity of the little-endian value on equal-length valid byte lists. -/
theorem natFromBytesLE_injOn (l₁ l₂ : List Nat) (hlen : l₁.length = l₂.length)
    (h₁ : ∀ b ∈ l₁, b < 256) (h₂ : ∀ b ∈ l₂, b < 256)
    (hval : natFromBytesLE l₁ = natFromBytesLE l₂) : l₁ = l₂ := by
  induction l₁ generalizing l₂ with
  | nil =>
    cases l₂ with
    | nil => rfl
    | cons b t => simp at hlen
  | cons b₁ t₁ ih =>
    cases l₂ with
    | nil => simp at hlen
    | cons b₂ t₂ =>
      simp only [natFromBytesLE] at hval
      have hb₁ : b₁ < 256 := h₁ b₁ (by simp)
      have hb₂ : b₂ < 256 := h₂ b₂ (by simp)
      have hhead : b₁ = b₂ := by omega
      have hfold : natFromBytesLE t₁ = natFromBytesLE t₂ := by omega
      have htails : t₁ = t₂ :=
        ih t₂ (by simpa using hlen) (fun x hx => h₁ x (by simp [hx]))
          (fun x hx => h₂ x (by simp [hx])) hfold
      rw [hhead, htails]

/-- The bs58 rendering of addresses is injective on valid 32-byte keys, so
the string comparisons in the source accept exactly the byte-equal inputs. -/
theorem toBase58_injOn (a b : Pubkey) (ha : ValidPubkey a) (hb : ValidPubkey b)
    (h : toBase58 a = toBase58 b) : a = b := by
  rw [toBase58, toBase58] at h
  injection h with hdata
  have hval : pubkeyNat a = pubkeyNat b := by
    have h1 := decodeBase58Nat_encode (a.takeWhile (fun x => x = 0)).length (pubkeyNat a)
    have h2 := decodeBase58Nat_encode (b.takeWhile (fun x => x = 0)).length (pubkeyNat b)
    rw [← h1, ← h2, hdata]
  have hrev : a.reverse = b.reverse := by
    apply natFromBytesLE_injOn
    · simp [ha.1, hb.1]
    · intro x hx; exact ha.2 x (List.mem_reverse.mp hx)
    · intro x hx; exact hb.2 x (List.mem_reverse.mp hx)
    · exact hval
  simpa using congrArg List.reverse hrev

/-! ## The `Invoice` record and its borsh codec

`struct Invoice { id: u128, amount: u64, paid: bool, destination: [u8; 32] }`
with `#[derive(BorshSerialize, BorshDeserialize)]`: little-endian
fixed-width integers, `bool` as one `0`/`1` byte, the array as 32 raw
bytes, fields in declaration order, no padding. -/

structure Invoice where
  id : Nat
  amount : Nat
  paid : Bool
  destination : Pubkey
deriving DecidableEq, Repr

/-- The typing invariant the Rust field types enforce: `id : u128`,
`amount : u64`, `destination : [u8; 32]`. -/
def Invoice.Valid (v : Invoice) : Prop :=
  v.id < 2 ^ 128 ∧ v.amount < 2 ^ 64 ∧ ValidPubkey v.destination

instance (v : Invoice) : Decidable v.Valid := by
  unfold Invoice.Valid; infer_instance

/-- `BorshSerialize for Invoice`: 16 bytes id, 8 bytes amount, 1 byte paid,
32 bytes destination. -/
def encodeInvoice (v : Invoice) : List Nat :=
  natToBytesLE 16 v.id ++ natToBytesLE 8 v.amount
    ++ [if v.paid then 1 else 0] ++ v.destination

/-- `borsh::object_length(&invoice)`: the byte length of the serialized record. -/
def borshObjectLength (v : Invoice) : Nat := (encodeInvoice v).length

/-- A borsh reader for a fixed number of raw bytes: fails when the input is
too short, otherwise returns the bytes read and the remaining input. -/
def readBytes (n : Nat) (l : List Nat) : Option (List Nat × List Nat) :=
  if n ≤ l.length then some (l.take n, l.drop n) else none

/-- The borsh `bool` reader: one byte, which must be `0` or `1`. -/
def readBool : List Nat → Option (Bool × List Nat)
  | 0 :: rest => some (false, rest)
  | 1 :: rest => some (true, rest)
  | _ => none

/-- `Invoice::try_from_slice`: strict borsh deserialization.  Reads the four
fields in order and then requires the whole input to be consumed; any
shorter or longer buffer, and any invalid `bool` byte, is rejected. -/
def decodeInvoice (l : List Nat) : Option Invoice :=
  match readBytes 16 l with
  | none => none
  | some (idB, r1) =>
    match readBytes 8 r1 with
    | none => none
    | some (amB, r2) =>
      match readBool r2 with
      | none => none
      | some (p, r3) =>
        match readBytes 32 r3 with
        | none => none
        | some (dB, r4) =>
          if r4 = [] then
            some ⟨natFromBytesLE idB, natFromBytesLE amB, p, dB⟩
          else none

/-- `enum InstructionData { PayInvoice, CreateInvoice(Invoice) }`. -/
inductive InstructionData where
  | payInvoice : InstructionData
  | createInvoice (invoice : Invoice) : InstructionData
deriving DecidableEq, Repr

/-- `InstructionData::try_from_slice`: strict borsh deserialization of the
instruction payload.  Byte 0 is the enum discriminant (`0` = PayInvoice,
`1` = CreateInvoice followed by the encoded `Invoice`); everything else,
and any unconsumed trailing bytes, is rejected. -/
def decodeInstructionData (l : List Nat) : Option InstructionData :=
  match l with
  | 0 :: rest => if rest = [] then some .payInvoice else none
  | 1 :: rest =>
    match decodeInvoice rest with
    | some v => some (.createInvoice v)
    | none => none
  | _ => none

theorem take_length_append (xs ys : List Nat) : (xs ++ ys).take xs.length = xs := by
  induction xs with
  | nil => rfl
  | cons a t ih => simp [ih]

theorem drop_length_append (xs ys : List Nat) : (xs ++ ys).drop xs.length = ys := by
  induction xs with
  | nil => rfl
  | cons a t ih => simp [ih]

theorem readBytes_exact (n : Nat) (xs : List Nat) (h : xs.length = n) (ys : List Nat) :
    readBytes n (xs ++ ys) = some (xs, ys) := by
  subst h
  unfold readBytes
  rw [if_pos (by simp), take_length_append, drop_length_append]

theorem readBytes_all (n : Nat) (xs : List Nat) (h : xs.length = n) :
    readBytes n xs = some (xs, []) := by
  have := readBytes_exact n xs h []
  simpa using this

theorem encodeInvoice_length (v : Invoice) (h : v.destination.length = 32) :
    (encodeInvoice v).length = 57 := by
  simp [encodeInvoice, h]

theorem encodeInvoice_ne_nil (v : Invoice) (h : v.destination.length = 32) :
    encodeInvoice v ≠ [] := by
  intro hnil
  have := encodeInvoice_length v h
  rw [hnil] at this
  simp at this

/-- Round-trip law of the borsh codec: decoding a serialized valid invoice
returns the invoice. -/
theorem decodeInvoice_encodeInvoice (v : Invoice) (hv : v.Valid) :
    decodeInvoice (encodeInvoice v) = some v := by
  obtain ⟨i, a, p, d⟩ := v
  have hid : i < 2 ^ 128 := hv.1
  have ham : a < 2 ^ 64 := hv.2.1
  have hdlen : d.length = 32 := hv.2.2.1
  have h1 : natFromBytesLE (natToBytesLE 16 i) = i :=
    natFromBytesLE_natToBytesLE 16 i (lt_of_lt_of_le hid (by norm_num))
  have h2 : natFromBytesLE (natToBytesLE 8 a) = a :=
    natFromBytesLE_natToBytesLE 8 a (lt_of_lt_of_le ham (by norm_num))
  simp only [encodeInvoice, decodeInvoice, List.append_assoc, List.singleton_append]
  simp only [readBytes_exact 16 _ (natToBytesLE_length 16 i),
    readBytes_exact 8 _ (natToBytesLE_length 8 a)]
  cases p
  · simp [readBool, readBytes_all 32 d hdlen, h1, h2]
  · simp [readBool, readBytes_all 32 d hdlen, h1, h2]

theorem readBytes_some (n : Nat) (l xs rest : List Nat)
    (h : readBytes n l = some (xs, rest)) :
    xs.length = n ∧ rest.length + n = l.length := by
  unfold readBytes at h
  split at h
  · injection h with h'
    have hx : xs = l.take n := by
      have := congrArg Prod.fst h'
      simpa using this.symm
    have hr : rest = l.drop n := by
      have := congrArg Prod.snd h'
      simpa using this.symm
    subst hx
    subst hr
    constructor
    · simp; omega
    · simp; omega
  · exact absurd h (by simp)

theorem readBool_some (l : List Nat) (p : Bool) (rest : List Nat)
    (h : readBool l = some (p, rest)) : l.length = rest.length + 1 := by
  match l with
  | [] => simp [readBool] at h
  | 0 :: t =>
    simp only [readBool, Option.some.injEq, Prod.mk.injEq] at h
    rw [← h.2]
    simp
  | 1 :: t =>
    simp only [readBool, Option.some.injEq, Prod.mk.injEq] at h
    rw [← h.2]
    simp
  | (b + 2) :: t => simp [readBool] at h

/-- A buffer that decodes as an `Invoice` has exactly 57 bytes: trailing
bytes are rejected just like short buffers. -/
theorem decodeInvoice_some_length (l : List Nat) (v : Invoice)
    (h : decodeInvoice l = some v) : l.length = 57 := by
  unfold decodeInvoice at h
  split at h
  · exact absurd h (by simp)
  case h_2 idB r1 heq1 =>
    split at h
    · exact absurd h (by simp)
    case h_2 amB r2 heq2 =>
      split at h
      · exact absurd h (by simp)
      case h_2 p r3 heq3 =>
        split at h
        · exact absurd h (by simp)
        case h_2 dB r4 heq4 =>
          split at h
          case isTrue hr4 =>
            obtain ⟨hx1, hl1⟩ := readBytes_some 16 l idB r1 heq1
            obtain ⟨hx2, hl2⟩ := readBytes_some 8 r1 amB r2 heq2
            have hb := readBool_some r2 p r3 heq3
            obtain ⟨hx4, hl4⟩ := readBytes_some 32 r3 dB r4 heq4
            rw [hr4] at hl4
            simp at hl4
            omega
          case isFalse => exact absurd h (by simp)

/-! ## Accounts, the ledger, and the system-program primitives

The spec's error taxonomy maps onto the `ProgramError` values the code
returns as follows: `MalformedInstruction` and `CorruptRecord` are
`BorshIoError` (the `?` on a failed borsh decode), `Unauthorized` is the
`InvalidArgument` returned at the admin identity check (lib.rs line 106),
`MissingSignature` is `MissingRequiredSignature`, `InvalidRecord` is
`InvalidAccountData`, `InvalidArgument` is itself, and `LedgerFailure`
covers the sub-invocation failures (`AccountAlreadyInUse`,
`InsufficientFunds`). -/

/-- The `ProgramError` values reachable in this program. -/
inductive ProgramError where
  | borshIoError : ProgramError
  | missingRequiredSignature : ProgramError
  | invalidAccountData : ProgramError
  | invalidArgument : ProgramError
  | notEnoughAccountKeys : ProgramError
  | accountAlreadyInUse : ProgramError
  | insufficientFunds : ProgramError
deriving DecidableEq, Repr

/-- An account reference as a handler sees it: its address and whether it
signed the transaction (`AccountInfo.key` / `AccountInfo.is_signer`). -/
structure AccountMeta where
  key : Pubkey
  isSigner : Bool
deriving DecidableEq, Repr

/-- The ledger state the program can touch: per-address balance, data
buffer, and owner.  Keyed by address so that two references to the same
address alias, as they do on the ledger. -/
structure Ledger where
  lamports : Pubkey → Nat
  data : Pubkey → List Nat
  owner : Pubkey → Pubkey

/-- Pointwise update of a keyed table. -/
def updFn {α : Type} (f : Pubkey → α) (k : Pubkey) (v : α) : Pubkey → α :=
  fun x => if x = k then v else f x

@[simp] theorem updFn_same {α : Type} (f : Pubkey → α) (k : Pubkey) (v : α) :
    updFn f k v k = v := by simp [updFn]

theorem updFn_other {α : Type} (f : Pubkey → α) (k x : Pubkey) (v : α) (h : x ≠ k) :
    updFn f k v x = f x := by simp [updFn, h]

/-- `const ADMIN_ACCOUNT_ID: &str` from the source. -/
def ADMIN_ACCOUNT_ID : String := "HWd8ZyEzy7exV7UGLBb6Hf1it54WNPXtK5sMivepDmP"

/-- `solana_program::system_program::ID`, the address `check_id` compares
against: the all-zero 32-byte address. -/
def systemProgramId : Pubkey := List.replicate 32 0

/-- `BorshSerialize::serialize` into a mutable byte slice (`&mut [u8]` used
as a `Write`r): overwrites the front of the buffer, fails when the buffer
is shorter than the encoding, leaves trailing bytes unchanged. -/
def serializeInto (enc buf : List Nat) : Option (List Nat) :=
  if enc.length ≤ buf.length then some (enc ++ buf.drop enc.length) else none

/-- The system program's value-transfer primitive, reached through
`invoke(&system_instruction::transfer(..), ..)`: moves `amount` lamports
from `src` to `dst`, failing when `src`'s balance is insufficient.  A
modelled external collaborator (the ledger), not code of this repository;
the payer's signature was checked by the caller before invoking it. -/
def systemTransfer (st : Ledger) (src dst : Pubkey) (amount : Nat) :
    Except ProgramError Ledger :=
  if amount ≤ st.lamports src then
    let st1 : Ledger :=
      { st with lamports := updFn st.lamports src (st.lamports src - amount) }
    Except.ok { st1 with lamports := updFn st1.lamports dst (st1.lamports dst + amount) }
  else Except.error ProgramError.insufficientFunds

/-- The system program's `create_account` primitive, reached through
`invoke_signed`: a modelled external collaborator (the ledger), not code of
this repository.  It requires the funder's signature (validated by the
caller before the call) and the new account's authorization, which the
runtime grants either because the bump-seed proof signs for the derived
address `grantedPda`, or because the new account itself signed the outer
transaction — caller privileges extend to the callee.  It fails when the
target account is already in use or the funder cannot pay; on success the
new account holds `lamports`, a zero-filled buffer of `space` bytes, and is
owned by `owner`. -/
def systemCreateAccount (st : Ledger) (funder newAcct : AccountMeta)
    (grantedPda : Pubkey) (lamports space : Nat) (owner : Pubkey) :
    Except ProgramError Ledger :=
  if funder.isSigner = false then Except.error ProgramError.missingRequiredSignature
  else if ¬ (newAcct.key = grantedPda ∨ newAcct.isSigner = true) then
    Except.error ProgramError.missingRequiredSignature
  else if ¬ (st.data newAcct.key = [] ∧ st.lamports newAcct.key = 0) then
    Except.error ProgramError.accountAlreadyInUse
  else if st.lamports funder.key < lamports then
    Except.error ProgramError.insufficientFunds
  else
    let st1 : Ledger :=
      { st with
        lamports := updFn st.lamports funder.key (st.lamports funder.key - lamports) }
    Except.ok
      { lamports := updFn st1.lamports newAcct.key (st1.lamports newAcct.key + lamports)
        data := updFn st1.data newAcct.key (List.replicate space 0)
        owner := updFn st1.owner newAcct.key owner }

/-! ## The instruction handlers -/

/-- The outcome of one invocation.  On error the carried ledger is the
state as the handler left it when it returned the error (the runtime then
rolls the whole invocation back); carrying it lets theorems state that no
effect preceded a failing check. -/
abbrev HandlerResult := Except (ProgramError × Ledger) Ledger

/-- `pay_invoice` from src/src/lib.rs.  Accounts, in order: sender (payer,
signer), pda (invoice storage), destination, system program; extra
accounts are ignored, missing ones fail like `next_account_info` does. -/
def pay_invoice (st : Ledger) (accounts : List AccountMeta) : HandlerResult :=
  match accounts with
  | sender :: pda :: destination :: system_program :: _ =>
    if sender.isSigner = false then
      Except.error (ProgramError.missingRequiredSignature, st)
    else if st.data pda.key = [] then
      Except.error (ProgramError.invalidAccountData, st)
    else if system_program.key ≠ systemProgramId then
      Except.error (ProgramError.invalidArgument, st)
    else
      match decodeInvoice (st.data pda.key) with
      | none => Except.error (ProgramError.borshIoError, st)
      | some invoice =>
        if toBase58 destination.key ≠ toBase58 invoice.destination then
          Except.error (ProgramError.invalidArgument, st)
        else
          match systemTransfer st sender.key destination.key invoice.amount with
          | Except.error e => Except.error (e, st)
          | Except.ok st1 =>
            let invoice1 : Invoice := { invoice with paid := true }
            match serializeInto (encodeInvoice invoice1) (st1.data pda.key) with
            | none => Except.error (ProgramError.borshIoError, st1)
            | some buf => Except.ok { st1 with data := updFn st1.data pda.key buf }
  | _ => Except.error (ProgramError.notEnoughAccountKeys, st)

/-- `create_invoice` from src/src/lib.rs.  `derive` models the address
component of `Pubkey::find_program_address(&[&id], &program_id)` (the
handler discards that component and relies only on the seeds signing for
it, which the modelled `systemCreateAccount` renders as `grantedPda`);
`rentMin` models `Rent::from_account_info(..).minimum_balance` (the rent
sysvar read).  Accounts, in order: admin (signer), pda (storage target),
system program, rent sysvar. -/
def create_invoice (derive : Nat → Pubkey) (rentMin : Nat → Nat) (program_id : Pubkey)
    (st : Ledger) (accounts : List AccountMeta) (invoice : Invoice) : HandlerResult :=
  match accounts with
  | admin :: pda :: _sysProgAcct :: _rentAcct :: _ =>
    if toBase58 admin.key ≠ ADMIN_ACCOUNT_ID then
      Except.error (ProgramError.invalidArgument, st)
    else if admin.isSigner = false then
      Except.error (ProgramError.missingRequiredSignature, st)
    else
      let space := borshObjectLength invoice
      let minimum_balance := rentMin space
      match systemCreateAccount st admin pda (derive invoice.id)
          minimum_balance space program_id with
      | Except.error e => Except.error (e, st)
      | Except.ok st1 =>
        match serializeInto (encodeInvoice invoice) (st1.data pda.key) with
        | none => Except.error (ProgramError.borshIoError, st1)
        | some buf => Except.ok { st1 with data := updFn st1.data pda.key buf }
  | _ => Except.error (ProgramError.notEnoughAccountKeys, st)

/-- `process_instruction`: strict borsh decode of the payload, then
dispatch.  A payload that does not decode fails before any account is
inspected. -/
def process_instruction (derive : Nat → Pubkey) (rentMin : Nat → Nat)
    (program_id : Pubkey) (st : Ledger) (accounts : List AccountMeta)
    (instruction_data : List Nat) : HandlerResult :=
  match decodeInstructionData instruction_data with
  | none => Except.error (ProgramError.borshIoError, st)
  | some InstructionData.payInvoice => pay_invoice st accounts
  | some (InstructionData.createInvoice invoice) =>
    create_invoice derive rentMin program_id st accounts invoice

/-! ## Concrete data used by the closed-form checks -/

/-- The 32 bytes whose bs58 rendering is `ADMIN_ACCOUNT_ID`. -/
def adminKeyBytes : Pubkey :=
  [4, 58, 201, 167, 87, 47, 208, 22, 1, 143, 170, 8, 255, 59, 100, 95,
   97, 102, 13, 236, 183, 171, 244, 183, 97, 103, 232, 195, 167, 159, 94, 198]

def senderKeyC : Pubkey := List.replicate 31 0 ++ [9]

def pdaKeyC : Pubkey := List.replicate 31 0 ++ [11]

def destKeyC : Pubkey := List.replicate 31 0 ++ [7]

def otherKeyC : Pubkey := List.replicate 31 0 ++ [13]

def programIdC : Pubkey := List.replicate 31 0 ++ [42]

def deriveC : Nat → Pubkey := fun _ => otherKeyC

def rentMinC : Nat → Nat := fun _ => 10

def invC : Invoice := ⟨1, 1000, false, destKeyC⟩

def invPaidC : Invoice := ⟨1, 1000, true, destKeyC⟩

def zeroLedger : Ledger :=
  { lamports := fun _ => 0, data := fun _ => [], owner := fun _ => systemProgramId }

/-- A ledger holding a freshly created invoice record and a funded payer. -/
def stPayC : Ledger :=
  { zeroLedger with
    lamports := updFn zeroLedger.lamports senderKeyC 5000
    data := updFn zeroLedger.data pdaKeyC (encodeInvoice invC) }

/-- Like `stPayC` but the stored record already has `paid = true`. -/
def stPaidC : Ledger :=
  { stPayC with data := updFn zeroLedger.data pdaKeyC (encodeInvoice invPaidC) }

/-- Like `stPayC` but the stored buffer has 58 bytes (one trailing byte). -/
def stLongC : Ledger :=
  { stPayC with data := updFn zeroLedger.data pdaKeyC (encodeInvoice invC ++ [0]) }

/-- A ledger with only the admin funded, nothing stored yet. -/
def stCreateC : Ledger :=
  { zeroLedger with lamports := updFn zeroLedger.lamports adminKeyBytes 100 }

def senderMetaC : AccountMeta := ⟨senderKeyC, true⟩

def pdaMetaC : AccountMeta := ⟨pdaKeyC, false⟩

def pdaSignerMetaC : AccountMeta := ⟨pdaKeyC, true⟩

def destMetaC : AccountMeta := ⟨destKeyC, false⟩

def badDestMetaC : AccountMeta := ⟨otherKeyC, false⟩

def sysProgMetaC : AccountMeta := ⟨systemProgramId, false⟩

def rentMetaC : AccountMeta := ⟨otherKeyC, false⟩

def adminMetaC : AccountMeta := ⟨adminKeyBytes, true⟩

def adminNoSigMetaC : AccountMeta := ⟨adminKeyBytes, false⟩

def badAdminMetaC : AccountMeta := ⟨otherKeyC, true⟩

/-! ## Behaviour of `pay_invoice` on a well-formed stored record -/

/-- Normal form of a successful `pay_invoice` run: all checks pass, the
transfer happens, and the record is rewritten in place with `paid = true`. -/
theorem pay_invoice_ok (st : Ledger) (sender pda destination sysProg : AccountMeta)
    (rest : List AccountMeta) (inv : Invoice)
    (hsig : sender.isSigner = true)
    (hbuf : st.data pda.key = encodeInvoice inv)
    (hv : inv.Valid)
    (hsys : sysProg.key = systemProgramId)
    (hstr : toBase58 destination.key = toBase58 inv.destination)
    (hbal : inv.amount ≤ st.lamports sender.key) :
    pay_invoice st (sender :: pda :: destination :: sysProg :: rest)
      = Except.ok
        { lamports :=
            updFn (updFn st.lamports sender.key (st.lamports sender.key - inv.amount))
              destination.key
              (updFn st.lamports sender.key (st.lamports sender.key - inv.amount)
                destination.key + inv.amount)
          data := updFn st.data pda.key (encodeInvoice { inv with paid := true })
          owner := st.owner } := by
  have hd32 : inv.destination.length = 32 := hv.2.2.1
  have hdec : decodeInvoice (encodeInvoice inv) = some inv :=
    decodeInvoice_encodeInvoice inv hv
  have hnonempty : encodeInvoice inv ≠ [] := encodeInvoice_ne_nil inv hd32
  have henc1 : (encodeInvoice { inv with paid := true }).length = 57 :=
    encodeInvoice_length _ hd32
  have henc : (encodeInvoice inv).length = 57 := encodeInvoice_length inv hd32
  have hdrop : (encodeInvoice inv).drop 57 = [] :=
    List.drop_eq_nil_of_le (le_of_eq henc)
  simp [pay_invoice, systemTransfer, serializeInto, hsig, hnonempty, hsys, hdec, hstr,
    hbal, hbuf, henc1, henc, hdrop]

/-! ## The claims -/

/-- C1: a stored invoice record with `paid = true` passes every check
`pay_invoice` makes — payer signature, non-empty storage, system-program
identity, destination match — and the call succeeds, transferring
`invoice.amount` base units from the payer to the destination again.  No
check of the `paid` flag is made before the transfer: the hypothesis
`inv.paid = true` is never used to block the run. -/
theorem claim_C1_double_pay (st : Ledger) (sender pda destination sysProg : AccountMeta)
    (rest : List AccountMeta) (inv : Invoice)
    (hsig : sender.isSigner = true)
    (hbuf : st.data pda.key = encodeInvoice inv)
    (hv : inv.Valid)
    (hpaid : inv.paid = true)
    (hsys : sysProg.key = systemProgramId)
    (hstr : toBase58 destination.key = toBase58 inv.destination)
    (hbal : inv.amount ≤ st.lamports sender.key)
    (hdiff : sender.key ≠ destination.key) :
    ∃ st', pay_invoice st (sender :: pda :: destination :: sysProg :: rest) = Except.ok st'
      ∧ st'.lamports sender.key = st.lamports sender.key - inv.amount
      ∧ st'.lamports destination.key = st.lamports destination.key + inv.amount := by
  refine ⟨_, pay_invoice_ok st sender pda destination sysProg rest inv
    hsig hbuf hv hsys hstr hbal, ?_, ?_⟩
  · simp [updFn, hdiff]
  · simp [updFn, Ne.symm hdiff]

/-- C4: settling a created, unpaid invoice whose checks all pass moves
exactly `inv.amount` base units from the payer to the recorded
destination, and rewrites the record in place as the same invoice with
`paid = true` — same buffer, same 57-byte size, other fields unchanged. -/
theorem claim_C4_settlement (st : Ledger) (sender pda destination sysProg : AccountMeta)
    (rest : List AccountMeta) (inv : Invoice)
    (hsig : sender.isSigner = true)
    (hbuf : st.data pda.key = encodeInvoice inv)
    (hv : inv.Valid)
    (hpaid : inv.paid = false)
    (hsys : sysProg.key = systemProgramId)
    (hdest : destination.key = inv.destination)
    (hbal : inv.amount ≤ st.lamports sender.key)
    (hdiff : sender.key ≠ destination.key) :
    ∃ st', pay_invoice st (sender :: pda :: destination :: sysProg :: rest) = Except.ok st'
      ∧ st'.lamports sender.key = st.lamports sender.key - inv.amount
      ∧ st'.lamports destination.key = st.lamports destination.key + inv.amount
      ∧ st'.data pda.key = encodeInvoice { inv with paid := true }
      ∧ decodeInvoice (st'.data pda.key) = some { inv with paid := true }
      ∧ (st'.data pda.key).length = (st.data pda.key).length := by
  have hstr : toBase58 destination.key = toBase58 inv.destination := by rw [hdest]
  have h1 : (encodeInvoice { inv with paid := true }).length = 57 :=
    encodeInvoice_length _ hv.2.2.1
  have h2 : (encodeInvoice inv).length = 57 := encodeInvoice_length inv hv.2.2.1
  refine ⟨_, pay_invoice_ok st sender pda destination sysProg rest inv
    hsig hbuf hv hsys hstr hbal, ?_, ?_, ?_, ?_, ?_⟩
  · simp [updFn, hdiff]
  · simp [updFn, Ne.symm hdiff]
  · simp [updFn]
  · simp only [updFn_same]
    exact decodeInvoice_encodeInvoice _ ⟨hv.1, hv.2.1, hv.2.2⟩
  · simp [updFn, hbuf, h1, h2]

/-- C5: when the caller-supplied destination account's address differs (as
raw bytes) from the destination recorded in the stored invoice, the string
comparison the code performs also differs, and `pay_invoice` fails with
`InvalidArgument`, issuing no transfer and leaving the state untouched
(the error carries the unchanged input ledger). -/
theorem claim_C5_destination_mismatch (st : Ledger)
    (sender pda destination sysProg : AccountMeta)
    (rest : List AccountMeta) (inv : Invoice)
    (hsig : sender.isSigner = true)
    (hbuf : st.data pda.key = encodeInvoice inv)
    (hv : inv.Valid)
    (hsys : sysProg.key = systemProgramId)
    (hdk : ValidPubkey destination.key)
    (hne : destination.key ≠ inv.destination) :
    pay_invoice st (sender :: pda :: destination :: sysProg :: rest)
      = Except.error (ProgramError.invalidArgument, st) := by
  have hd32 : inv.destination.length = 32 := hv.2.2.1
  have hdec : decodeInvoice (encodeInvoice inv) = some inv :=
    decodeInvoice_encodeInvoice inv hv
  have hnonempty : encodeInvoice inv ≠ [] := encodeInvoice_ne_nil inv hd32
  have hstr : ¬ toBase58 destination.key = toBase58 inv.destination := by
    intro h
    exact hne (toBase58_injOn destination.key inv.destination hdk hv.2.2 h)
  simp [pay_invoice, hsig, hsys, hbuf, hnonempty, hdec, hstr]

/-- C10: a non-empty stored buffer whose length is not exactly 57 —
including one longer than 57, whose trailing bytes strict borsh decoding
rejects — fails to decode, and `pay_invoice` aborts with the decode error,
issuing no transfer and leaving the state untouched. -/
theorem claim_C10_wrong_length (st : Ledger)
    (sender pda destination sysProg : AccountMeta) (rest : List AccountMeta)
    (hsig : sender.isSigner = true)
    (hne : st.data pda.key ≠ [])
    (hlen : (st.data pda.key).length ≠ 57)
    (hsys : sysProg.key = systemProgramId) :
    pay_invoice st (sender :: pda :: destination :: sysProg :: rest)
      = Except.error (ProgramError.borshIoError, st) := by
  have hdec : decodeInvoice (st.data pda.key) = none := by
    cases h : decodeInvoice (st.data pda.key) with
    | none => rfl
    | some v => exact absurd (decodeInvoice_some_length _ v h) hlen
  simp [pay_invoice, hsig, hne, hsys, hdec]

/-- C3: `create_invoice` validates in the stated order with no effect
before the first failing check.  A non-matching admin identity fails at
the first check — the code renders the spec's `Unauthorized` as
`ProgramError::InvalidArgument` (lib.rs line 106) — regardless of the
signer flag; a matching admin identity without a signature fails at the
second check with `MissingRequiredSignature`.  Both errors carry the input
ledger unchanged: no storage is created, nothing is mutated. -/
theorem claim_C3_admin_checks (derive : Nat → Pubkey) (rentMin : Nat → Nat)
    (program_id : Pubkey) (st : Ledger) (admin pda a3 a4 : AccountMeta)
    (rest : List AccountMeta) (inv : Invoice) :
    (toBase58 admin.key ≠ ADMIN_ACCOUNT_ID →
      create_invoice derive rentMin program_id st (admin :: pda :: a3 :: a4 :: rest) inv
        = Except.error (ProgramError.invalidArgument, st))
    ∧ (toBase58 admin.key = ADMIN_ACCOUNT_ID → admin.isSigner = false →
      create_invoice derive rentMin program_id st (admin :: pda :: a3 :: a4 :: rest) inv
        = Except.error (ProgramError.missingRequiredSignature, st)) := by
  constructor
  · intro h
    simp [create_invoice, h]
  · intro h hsig
    simp [create_invoice, h, hsig]

/-- C2 is refuted at this input: a CreateInvoice call whose storage
account reference signed the outer transaction but sits at an address
different from `derive(invoice.id)` succeeds, and the record ends up at
that non-derived address.  The handler performs no comparison of the
storage address with the derived one (the source discards the derived
address, keeping only the bump seed), and the creation primitive's
authorization is satisfied by the storage account's own signature instead
of the bump-seed proof. -/
theorem claim_C2_pda_not_checked :
    ∃ st', create_invoice deriveC rentMinC programIdC stCreateC
        [adminMetaC, pdaSignerMetaC, sysProgMetaC, rentMetaC] invC = Except.ok st'
      ∧ pdaSignerMetaC.key ≠ deriveC invC.id
      ∧ st'.data pdaSignerMetaC.key = encodeInvoice invC := by
  refine ⟨_, rfl, by decide, by decide⟩

/-- C6: round-trip law of the invoice codec — decoding the serialization
of any valid `Invoice` yields the same invoice. -/
theorem claim_C6_roundtrip (x : Invoice) (hx : x.Valid) :
    decodeInvoice (encodeInvoice x) = some x :=
  decodeInvoice_encodeInvoice x hx

/-- C7: the dispatcher reads byte 0 as the discriminant — `0` selects
PayInvoice and tolerates no further payload, `1` selects CreateInvoice
followed by the fixed-layout encoded invoice, any other first byte or an
empty payload is rejected — and every payload that fails to decode makes
`process_instruction` fail with the decode error before any account is
read (the result is the same for every account list) and with the ledger
untouched. -/
theorem claim_C7_dispatch (derive : Nat → Pubkey) (rentMin : Nat → Nat)
    (program_id : Pubkey) (st : Ledger) :
    (∀ rest : List Nat, decodeInstructionData (0 :: rest)
      = if rest = [] then some InstructionData.payInvoice else none)
    ∧ (∀ inv : Invoice, inv.Valid →
      decodeInstructionData (1 :: encodeInvoice inv)
        = some (InstructionData.createInvoice inv))
    ∧ (∀ (b : Nat) (rest : List Nat), 2 ≤ b → decodeInstructionData (b :: rest) = none)
    ∧ decodeInstructionData [] = none
    ∧ (∀ (payload : List Nat) (accounts : List AccountMeta),
      decodeInstructionData payload = none →
      process_instruction derive rentMin program_id st accounts payload
        = Except.error (ProgramError.borshIoError, st)) := by
  refine ⟨fun rest => rfl, fun inv hv => ?_, fun b rest hb => ?_, rfl,
    fun payload accounts h => ?_⟩
  · simp [decodeInstructionData, decodeInvoice_encodeInvoice inv hv]
  · obtain ⟨k, rfl⟩ : ∃ k, b = k + 2 := ⟨b - 2, by omega⟩
    rfl
  · simp [process_instruction, h]

/-- C8: the serialized form of every valid invoice has exactly 57 bytes
(16 id + 8 amount + 1 paid + 32 destination), so the space
`create_invoice` allocates — `borsh::object_length` of the record — is the
constant 57. -/
theorem claim_C8_record_size (x : Invoice) (hx : x.Valid) :
    (encodeInvoice x).length = 57 ∧ borshObjectLength x = 57 := by
  have h := encodeInvoice_length x hx.2.2.1
  exact ⟨h, h⟩

/-- C9: on valid 32-byte addresses the bs58 string rendering is injective,
so the string comparisons the handlers use for the destination and admin
accounts accept exactly the same inputs as raw byte equality would. -/
theorem claim_C9_string_vs_bytes (a b : Pubkey) (ha : ValidPubkey a) (hb : ValidPubkey b) :
    toBase58 a = toBase58 b ↔ a = b :=
  ⟨toBase58_injOn a b ha hb, fun h => by rw [h]⟩

/-! ## Closed-form checks of the claims at concrete inputs -/

/-- C1 at a concrete already-paid record: the second payment succeeds and
moves the 1000 base units again. -/
theorem claim_C1_witness :
    invPaidC.paid = true
    ∧ stPaidC.data pdaMetaC.key = encodeInvoice invPaidC
    ∧ ∃ st', pay_invoice stPaidC [senderMetaC, pdaMetaC, destMetaC, sysProgMetaC]
        = Except.ok st'
      ∧ st'.lamports senderMetaC.key = stPaidC.lamports senderMetaC.key - invPaidC.amount
      ∧ st'.lamports destMetaC.key = stPaidC.lamports destMetaC.key + invPaidC.amount :=
  ⟨rfl, by decide,
   claim_C1_double_pay stPaidC senderMetaC pdaMetaC destMetaC sysProgMetaC [] invPaidC
     (by decide) (by decide) (by decide) rfl (by decide) (by decide) (by decide)
     (by decide)⟩

/-- C4 at the spec's concrete settlement example
`{id = 1, amount = 1000, paid = false, destination = D}`. -/
theorem claim_C4_witness :
    invC.paid = false
    ∧ stPayC.data pdaMetaC.key = encodeInvoice invC
    ∧ ∃ st', pay_invoice stPayC [senderMetaC, pdaMetaC, destMetaC, sysProgMetaC]
        = Except.ok st'
      ∧ st'.lamports senderMetaC.key = stPayC.lamports senderMetaC.key - invC.amount
      ∧ st'.lamports destMetaC.key = stPayC.lamports destMetaC.key + invC.amount
      ∧ st'.data pdaMetaC.key = encodeInvoice { invC with paid := true }
      ∧ decodeInvoice (st'.data pdaMetaC.key) = some { invC with paid := true }
      ∧ (st'.data pdaMetaC.key).length = (stPayC.data pdaMetaC.key).length :=
  ⟨rfl, by decide,
   claim_C4_settlement stPayC senderMetaC pdaMetaC destMetaC sysProgMetaC [] invC
     (by decide) (by decide) (by decide) rfl (by decide) (by decide) (by decide)
     (by decide)⟩

/-- C5 at a concrete mismatched destination account. -/
theorem claim_C5_witness :
    badDestMetaC.key ≠ invC.destination
    ∧ pay_invoice stPayC [senderMetaC, pdaMetaC, badDestMetaC, sysProgMetaC]
      = Except.error (ProgramError.invalidArgument, stPayC) :=
  ⟨by decide,
   claim_C5_destination_mismatch stPayC senderMetaC pdaMetaC badDestMetaC sysProgMetaC []
     invC (by decide) (by decide) (by decide) (by decide) (by decide) (by decide)⟩

/-- C10 at a concrete 58-byte stored buffer (a valid record plus one
trailing byte): decoding rejects it and the call aborts. -/
theorem claim_C10_witness :
    (stLongC.data pdaMetaC.key).length = 58
    ∧ pay_invoice stLongC [senderMetaC, pdaMetaC, destMetaC, sysProgMetaC]
      = Except.error (ProgramError.borshIoError, stLongC) :=
  ⟨by decide,
   claim_C10_wrong_length stLongC senderMetaC pdaMetaC destMetaC sysProgMetaC []
     (by decide) (by decide) (by decide) (by decide)⟩

/-- C3 at concrete inputs: a wrong admin identity (with a signature) fails
at the identity check, and the right identity without a signature fails at
the signer check. -/
theorem claim_C3_witness :
    (toBase58 badAdminMetaC.key ≠ ADMIN_ACCOUNT_ID
      ∧ create_invoice deriveC rentMinC programIdC stCreateC
          [badAdminMetaC, pdaMetaC, sysProgMetaC, rentMetaC] invC
        = Except.error (ProgramError.invalidArgument, stCreateC))
    ∧ (toBase58 adminNoSigMetaC.key = ADMIN_ACCOUNT_ID
      ∧ adminNoSigMetaC.isSigner = false
      ∧ create_invoice deriveC rentMinC programIdC stCreateC
          [adminNoSigMetaC, pdaMetaC, sysProgMetaC, rentMetaC] invC
        = Except.error (ProgramError.missingRequiredSignature, stCreateC)) :=
  ⟨⟨by decide,
    (claim_C3_admin_checks deriveC rentMinC programIdC stCreateC badAdminMetaC pdaMetaC
      sysProgMetaC rentMetaC [] invC).1 (by decide)⟩,
   ⟨by decide, rfl,
    (claim_C3_admin_checks deriveC rentMinC programIdC stCreateC adminNoSigMetaC pdaMetaC
      sysProgMetaC rentMetaC [] invC).2 (by decide) rfl⟩⟩

/-- C6 at a concrete invoice. -/
theorem claim_C6_witness :
    invC.Valid ∧ decodeInvoice (encodeInvoice invC) = some invC :=
  ⟨by decide, claim_C6_roundtrip invC (by decide)⟩

/-- C7 at concrete payloads: tag 1 followed by a valid encoded invoice
decodes, and the unknown tag 2 makes the whole invocation fail with the
ledger untouched whatever the account list. -/
theorem claim_C7_witness :
    invC.Valid
    ∧ decodeInstructionData (1 :: encodeInvoice invC)
        = some (InstructionData.createInvoice invC)
    ∧ decodeInstructionData [2] = none
    ∧ process_instruction deriveC rentMinC programIdC stPayC [] [2]
        = Except.error (ProgramError.borshIoError, stPayC) :=
  ⟨by decide,
   (claim_C7_dispatch deriveC rentMinC programIdC stPayC).2.1 invC (by decide),
   by decide,
   (claim_C7_dispatch deriveC rentMinC programIdC stPayC).2.2.2.2 [2] [] (by decide)⟩

/-- C8 at a concrete invoice. -/
theorem claim_C8_witness :
    invC.Valid ∧ (encodeInvoice invC).length = 57 ∧ borshObjectLength invC = 57 :=
  ⟨by decide, claim_C8_record_size invC (by decide)⟩

/-- C9 at two concrete distinct valid addresses. -/
theorem claim_C9_witness :
    ValidPubkey destKeyC ∧ ValidPubkey otherKeyC
    ∧ (toBase58 destKeyC = toBase58 otherKeyC ↔ destKeyC = otherKeyC) :=
  ⟨by decide, by decide,
   claim_C9_string_vs_bytes destKeyC otherKeyC (by decide) (by decide)⟩

end InvoiceProgram
